import Mathlib

set_option linter.unusedVariables false

/-!
Shallow embedding of the condition evaluation engine in
`src/lib/server/cond_eval.c` (FreeRADIUS server).  The functions of that
file (`all_digits`, `cond_eval_tmpl`, `cond_do_regex`, `cond_cmp_values`,
`cond_realize_tmpl`, `cond_normalise_and_cmp`, `cond_eval_map`,
`cond_eval`) are translated one by one.  External collaborators that live
outside this file (the expansion engine, the attribute store, the regex
engine, the legacy pair comparator and the typed value primitives) are
modelled from their interface contracts, as oracle fields of the request
or as small pure functions; each such definition is marked
"Modelled from the spec".
-/

/-- Strings are modelled as lists of characters. -/
abbrev Str := List Char

/-- Value type tags (`fr_type_t`).  `invalid` is `FR_TYPE_INVALID` (zero,
meaning "no type / no cast"); a handful of concrete types suffices for the
evaluator's behaviour. -/
inductive FrType where
  | invalid
  | tstring
  | tuint64
  | tuint32
deriving DecidableEq, Repr

/-- Tagged values (`fr_value_box_t`): a type tag plus payload. -/
inductive ValueBox where
  | vstr (s : Str)
  | vu64 (n : Nat)
  | vu32 (n : Nat)
  | vinvalid
deriving DecidableEq, Repr

/-- The type tag of a value box. -/
def ValueBox.vtype : ValueBox → FrType
  | .vstr _ => .tstring
  | .vu64 _ => .tuint64
  | .vu32 _ => .tuint32
  | .vinvalid => .invalid

/-- The string payload of a value box (`vb_strvalue`); only read under a
string type guard in the source. -/
def ValueBox.strv : ValueBox → Str
  | .vstr s => s
  | _ => []

/-- Comparison operators reaching the evaluator.  `regEq` is `T_OP_REG_EQ`;
regex not-match is normalised away at parse time and never appears. -/
inductive FrOp where
  | eq | ne | lt | le | gt | ge | regEq
deriving DecidableEq, Repr

/-- Embedding of `all_digits` (cond_eval.c:64): the empty string is false;
one optional leading minus sign is skipped; every remaining character must
be a decimal digit (so "-" alone is true, exactly as in the source). -/
def all_digits (s : Str) : Bool :=
  match s with
  | [] => false
  | '-' :: rest => rest.all Char.isDigit
  | l => l.all Char.isDigit

/-- Modelled from the spec: lexicographic ordering of strings, used by the
typed value comparison primitive for string operands. -/
def strCompare : Str → Str → Ordering
  | [], [] => .eq
  | [], _ :: _ => .lt
  | _ :: _, [] => .gt
  | a :: as, b :: bs =>
    if a < b then .lt
    else if b < a then .gt
    else strCompare as bs

/-- Modelled from the spec: decimal value of a digit string (used by the
cast primitive when casting a string to an integer type); fails on a
non-digit or empty string. -/
def decimalValue (s : Str) : Option Nat :=
  match s with
  | [] => none
  | l =>
    if l.all Char.isDigit then
      some (l.foldl (fun acc c => acc * 10 + (c.toNat - 48)) 0)
    else none

/-- Modelled from the spec: the typed value primitive
`cast(value, target_type, context_attr?) -> value | Fail`
(`fr_value_box_cast`, outside this file).  String to integer parses the
decimal representation (failing on non-digits or overflow); integer to
string prints it; numeric widths convert with range checking. -/
def fr_value_box_cast (v : ValueBox) (t : FrType) : Option ValueBox :=
  match t with
  | .invalid => none
  | .tstring =>
    match v with
    | .vstr s => some (.vstr s)
    | .vu64 n => some (.vstr (Nat.toDigits 10 n))
    | .vu32 n => some (.vstr (Nat.toDigits 10 n))
    | .vinvalid => none
  | .tuint64 =>
    match v with
    | .vstr s =>
      match decimalValue s with
      | some n => if n < 18446744073709551616 then some (.vu64 n) else none
      | none => none
    | .vu64 n => some (.vu64 n)
    | .vu32 n => some (.vu64 n)
    | .vinvalid => none
  | .tuint32 =>
    match v with
    | .vstr s =>
      match decimalValue s with
      | some n => if n < 4294967296 then some (.vu32 n) else none
      | none => none
    | .vu64 n => if n < 4294967296 then some (.vu32 n) else none
    | .vu32 n => some (.vu32 n)
    | .vinvalid => none

/-- Modelled from the spec: outcome of one operator on one `Ordering`,
the boolean half of `apply_operator`; the regex operator is undefined for
plain value comparison. -/
def opApply : FrOp → Ordering → Int
  | .eq, o => if o = .eq then 1 else 0
  | .ne, o => if o = .eq then 0 else 1
  | .lt, o => if o = .lt then 1 else 0
  | .le, o => if o = .gt then 0 else 1
  | .gt, o => if o = .gt then 1 else 0
  | .ge, o => if o = .lt then 0 else 1
  | .regEq, _ => -1

/-- Modelled from the spec: the typed value primitive
`apply_operator(op, a, b) -> true (1) | false (0) | Fail (-1)`
(`fr_value_box_cmp_op`, outside this file).  Operands must share a type;
a missing operand or a type mismatch is a failure. -/
def fr_value_box_cmp_op (op : FrOp) (a b : Option ValueBox) : Int :=
  match a, b with
  | some x, some y =>
    match x, y with
    | .vstr s, .vstr t => opApply op (strCompare s t)
    | .vu64 m, .vu64 n => opApply op (compare m n)
    | .vu32 m, .vu32 n => opApply op (compare m n)
    | _, _ => -1
  | _, _ => -1

/-- Templates (`tmpl_t`) as they can reach evaluation: all unresolved
variants are gone by this point.  Every variant carries its optional
explicit cast; an attribute reference carries its dictionary type and a
reference key; expansions carry an identifier for the expansion oracle;
a precompiled regex carries a handle for the regex oracle. -/
inductive Tmpl where
  | attr (cast : FrType) (da_type : FrType) (ref : Nat)
  | listT (cast : FrType)
  | tdata (cast : FrType) (v : ValueBox)
  | exec (cast : FrType) (x : Nat)
  | xlat (cast : FrType) (x : Nat)
  | regexT (cast : FrType) (h : Nat)
  | regexXlat (cast : FrType) (x : Nat)
deriving DecidableEq, Repr

/-- The explicit cast carried by a template. -/
def Tmpl.tcast : Tmpl → FrType
  | .attr c _ _ => c
  | .listT c => c
  | .tdata c _ => c
  | .exec c _ => c
  | .xlat c _ => c
  | .regexT c _ => c
  | .regexXlat c _ => c

/-- `tmpl_is_attr`. -/
def tmpl_is_attr : Tmpl → Bool
  | .attr _ _ _ => true
  | _ => false

/-- `tmpl_is_data`. -/
def tmpl_is_data : Tmpl → Bool
  | .tdata _ _ => true
  | _ => false

/-- `tmpl_is_regex_xlat`. -/
def tmpl_is_regex_xlat : Tmpl → Bool
  | .regexXlat _ _ => true
  | _ => false

/-- `tmpl_da(vpt)->type`: the dictionary type of an attribute reference
(only read on attribute templates in the source). -/
def tmplDaType : Tmpl → FrType
  | .attr _ dty _ => dty
  | _ => .invalid

/-- `tmpl_value_type`: the native type of a literal data template. -/
def tmplDataType : Tmpl → FrType
  | .tdata _ v => v.vtype
  | _ => .invalid

/-- Attribute pairs (`fr_pair_t` skeleton): dictionary key, operator tag
and value. -/
structure FrPair where
  da : Nat
  op : FrOp
  data : ValueBox
deriving DecidableEq, Repr

/-- Modelled from the spec: the regex engine's execution outcome,
`exec(handle, subject) -> Match(captures) | NoMatch | Fail`. -/
inductive RegexExecResult where
  | rmatch (caps : List Str)
  | rnomatch
  | rfail
deriving DecidableEq, Repr

/-- The request: its attribute pairs, its regex capture slots, and the
external collaborators, modelled from the spec as oracle functions
(expansion engine `aexpand`, regex engine `regex_compile_f`,
`subcapture_count_f` and `regex_exec_f`, legacy pair comparator
`paircmp_f`).  The second argument of `aexpand` records whether the regex
escape function was supplied to the expansion. -/
structure Request where
  pairs : List FrPair
  regex_captures : List Str
  aexpand : Nat → Bool → Option Str
  regex_compile_f : Str → Option Nat
  subcapture_count_f : Nat → Nat
  regex_exec_f : Nat → Str → RegexExecResult
  paircmp_f : List FrPair → FrPair → Int

/-- One map: left template, right template, operator (`map_t`). -/
structure MapData where
  lhs : Tmpl
  rhs : Tmpl
  op : FrOp
deriving DecidableEq, Repr

/-- Parse-time fixup annotation (`pass2_fixup`). -/
inductive Fixup where
  | fnone | fattr | ftype | paircompare
deriving DecidableEq, Repr

/-- Modelled from the spec: the attribute store's iteration interface
(`first_matching(list_selector) -> instance | none`, `next()`), realised
as the list of request pairs matched by a template: an attribute
reference selects the instances with its dictionary key, a list
reference selects the whole request list. -/
def tmpl_pairs (request : Request) (vpt : Tmpl) : List FrPair :=
  match vpt with
  | .attr _ _ ref => request.pairs.filter (fun p => p.da = ref)
  | .listT _ => request.pairs
  | _ => []

/-- Modelled from the spec: `tmpl_find_vp` (attribute lookup, outside this
file) returns zero exactly when a matching instance exists. -/
def tmpl_find_vp (request : Request) (vpt : Tmpl) : Int :=
  match tmpl_pairs request vpt with
  | [] => -1
  | _ :: _ => 0

/-- Embedding of `cond_eval_tmpl` (cond_eval.c:132): a bare template as a
boolean.  Attribute and list references are presence tests; exec and xlat
expand, give 0 when the expansion FAILS (`return false` at line 151) or
is empty, and 1 otherwise; regex and any other variant here is a
programming error and gives 0. -/
def cond_eval_tmpl (request : Request) (vpt : Tmpl) : Int :=
  match vpt with
  | .attr _ _ _ => if tmpl_find_vp request vpt = 0 then 1 else 0
  | .listT _ => if tmpl_find_vp request vpt = 0 then 1 else 0
  | .exec _ x | .xlat _ x =>
    match request.aexpand x false with
    | none => 0
    | some s => if s.length = 0 then 0 else 1
  | _ => 0

/-- `REQUEST_MAX_REGEX` from the server headers (fallback capture-slot
maximum). -/
def REQUEST_MAX_REGEX : Nat := 8

/-- The pattern obtained by `cond_do_regex` (cond_eval.c:208): either the
precompiled pattern of a regex template, or the right operand (which must
be a string) compiled now; `none` is the failure path (assertion failure
or compilation error). -/
def cond_regex_preg (request : Request) (m : MapData) (rhs : Option ValueBox) :
    Option Nat :=
  match m.rhs with
  | .regexT _ h => some h
  | _ =>
    match rhs with
    | some (ValueBox.vstr s) => request.regex_compile_f s
    | _ => none

/-- The number of capture slots allocated by `cond_do_regex`
(cond_eval.c:228): the engine-reported subcapture count, or
`REQUEST_MAX_REGEX + 1` when the pattern reports none. -/
def cond_subcaptures (request : Request) (preg : Nat) : Nat :=
  if request.subcapture_count_f preg = 0 then REQUEST_MAX_REGEX + 1
  else request.subcapture_count_f preg

/-- Embedding of `cond_do_regex` (cond_eval.c:190): the left operand must
be a string; obtain a pattern; execute.  No match (0) clears the capture
slots; a match (1) publishes the captures (at most the allocated slot
count); an execution error (-1) returns failure and leaves the request
untouched. -/
def cond_do_regex (request : Request) (m : MapData) (lhs rhs : Option ValueBox) :
    Int × Request :=
  match lhs with
  | some (ValueBox.vstr ls) =>
    match cond_regex_preg request m rhs with
    | none => (-1, request)
    | some preg =>
      match request.regex_exec_f preg ls with
      | .rnomatch => (0, { request with regex_captures := [] })
      | .rmatch caps =>
        (1, { request with regex_captures := caps.take (cond_subcaptures request preg) })
      | .rfail => (-1, request)
  | _ => (-1, request)

/-- Embedding of `cond_cmp_values` (cond_eval.c:298): regex operator goes
to the regex comparator; a `paircompare` map builds a synthetic pair from
the left attribute's key, the map operator and a copy of the right value,
asks the legacy pair comparator, and maps zero to 1 and EVERY nonzero
result (failures included, line 335) to 0; otherwise the generic typed
comparison primitive decides. -/
def cond_cmp_values (request : Request) (fx : Fixup) (m : MapData)
    (lhs rhs : Option ValueBox) : Int × Request :=
  if m.op = .regEq then cond_do_regex request m lhs rhs
  else if fx = .paircompare then
    match m.lhs, rhs with
    | .attr _ _ da, some rv =>
      ((if request.paircmp_f request.pairs ⟨da, m.op, rv⟩ = 0 then 1 else 0), request)
    | _, _ => (-1, request)
  else (fr_value_box_cmp_op m.op lhs rhs, request)

/-- The `CAST` macro of `cond_normalise_and_cmp` (cond_eval.c:543): cast
an operand to the selected type when there is one, the operand is
present, its type is not invalid and differs from the target; the outer
`none` is the failure path (`rcode = -1; goto finish`), the inner value
is the possibly replaced operand. -/
def castOperand (ct : FrType) (s : Option ValueBox) : Option (Option ValueBox) :=
  match s with
  | none => some none
  | some v =>
    if ct = FrType.invalid then some (some v)
    else if v.vtype = FrType.invalid then some (some v)
    else if ct = v.vtype then some (some v)
    else
      match fr_value_box_cast v ct with
      | none => none
      | some v2 => some (some v2)

/-- The `CHECK_INT_CAST` macro (cond_eval.c:558): when no type was
selected and both operands are digit strings, force the comparison type
to `uint64`. -/
def check_int_cast (ct : FrType) (l r : Option ValueBox) : FrType :=
  if ct = FrType.invalid then
    match l, r with
    | some lv, some rv =>
      if lv.vtype = FrType.tstring ∧ rv.vtype = FrType.tstring ∧
         all_digits lv.strv ∧ all_digits rv.strv
      then FrType.tuint64 else ct
    | _, _ => ct
  else ct

/-- The comparison-type selection of `cond_normalise_and_cmp`
(cond_eval.c:572): regex forces string; a paircompare map forces the left
attribute's dictionary type; then the LEFT template's explicit cast; then
the left attribute's type; then the right attribute's type; then the left
literal's type; then the right literal's type; otherwise no forced type.
Note there is no rule for a right-side explicit cast. -/
def cond_cast_type (fx : Fixup) (m : MapData) : FrType :=
  if m.op = .regEq then FrType.tstring
  else if fx = .paircompare then tmplDaType m.lhs
  else if m.lhs.tcast ≠ FrType.invalid then m.lhs.tcast
  else if tmpl_is_attr m.lhs then tmplDaType m.lhs
  else if tmpl_is_attr m.rhs then tmplDaType m.rhs
  else if tmpl_is_data m.lhs then tmplDataType m.lhs
  else if tmpl_is_data m.rhs then tmplDataType m.rhs
  else FrType.invalid

/-- The escape function passed when expanding the right template
(cond_eval.c:576): only a regex-xlat right side of a regex comparison is
escaped. -/
def cond_rhs_escape (m : MapData) : Bool :=
  if m.op = .regEq then tmpl_is_regex_xlat m.rhs else false

/-- The right-attribute iteration of `cond_normalise_and_cmp`
(cond_eval.c:622): walk every matching instance; per instance run
`CHECK_INT_CAST` (the selected type and the possibly already cast left
operand persist across iterations, as the C locals do), `CAST` both
sides (failure aborts the whole walk with -1), compare, and stop on the
first nonzero outcome; exhausting the instances leaves 0. -/
def cond_cmp_attr_rhs (fx : Fixup) (m : MapData) :
    Request → FrType → Option ValueBox → List FrPair → Int × Request
  | request, _, _, [] => (0, request)
  | request, ct, lhs, vp :: rest =>
    let ct2 := check_int_cast ct lhs (some vp.data)
    match castOperand ct2 lhs with
    | none => (-1, request)
    | some lhs2 =>
      match castOperand ct2 (some vp.data) with
      | none => (-1, request)
      | some rhs2 =>
        match cond_cmp_values request fx m lhs2 rhs2 with
        | (rcode, req2) =>
          if rcode ≠ 0 then (rcode, req2)
          else cond_cmp_attr_rhs fx m req2 ct2 lhs2 rest

/-- Embedding of `cond_normalise_and_cmp` (cond_eval.c:525): select the
comparison type, then resolve the right side by its template kind —
attribute reference iterates instances; literal data compares once;
exec/xlat/regex-xlat expand once (failure is -1) and compare; a
precompiled regex casts the left side only; anything else is a
programming error (-1). -/
def cond_normalise_and_cmp (request : Request) (fx : Fixup) (m : MapData)
    (lhs : Option ValueBox) : Int × Request :=
  let ct := cond_cast_type fx m
  match m.rhs with
  | .attr _ _ ref =>
    cond_cmp_attr_rhs fx m request ct lhs (request.pairs.filter (fun p => p.da = ref))
  | .tdata _ v =>
    let ct2 := check_int_cast ct lhs (some v)
    match castOperand ct2 lhs with
    | none => (-1, request)
    | some lhs2 =>
      match castOperand ct2 (some v) with
      | none => (-1, request)
      | some rhs2 => cond_cmp_values request fx m lhs2 rhs2
  | .exec _ x | .xlat _ x | .regexXlat _ x =>
    match request.aexpand x (cond_rhs_escape m) with
    | none => (-1, request)
    | some p =>
      let ct2 := check_int_cast ct lhs (some (ValueBox.vstr p))
      match castOperand ct2 lhs with
      | none => (-1, request)
      | some lhs2 =>
        match castOperand ct2 (some (ValueBox.vstr p)) with
        | none => (-1, request)
        | some rhs2 => cond_cmp_values request fx m lhs2 rhs2
  | .regexT _ _ =>
    match castOperand ct lhs with
    | none => (-1, request)
    | some lhs2 => cond_cmp_values request fx m lhs2 none
  | .listT _ => (-1, request)

/-- Embedding of `cond_realize_tmpl` (cond_eval.c:411): lists, attribute
references and precompiled regexes are deferred (`ok none`); literal data
resolves to its value; exec, xlat and regex-xlat (the latter with the
regex escape function) expand, pick the target type by priority (own
cast, sibling cast, sibling attribute type, sibling literal type,
string), and cast if needed; expansion or cast failure is `error`. -/
def cond_realize_tmpl (request : Request) (tin other : Tmpl) :
    Except Unit (Option ValueBox) :=
  match tin with
  | .listT _ => .ok none
  | .regexT _ _ => .ok none
  | .attr _ _ _ => .ok none
  | .tdata _ v => .ok (some v)
  | .exec _ x | .xlat _ x | .regexXlat _ x =>
    match request.aexpand x (tmpl_is_regex_xlat tin) with
    | none => .error ()
    | some s =>
      let box := ValueBox.vstr s
      let ct :=
        if tin.tcast ≠ FrType.invalid then tin.tcast
        else if other.tcast ≠ FrType.invalid then other.tcast
        else
          match other with
          | .attr _ dty _ => dty
          | .tdata _ v2 => v2.vtype
          | _ => FrType.tstring
      if ct ≠ box.vtype then
        match fr_value_box_cast box ct with
        | none => .error ()
        | some b => .ok (some b)
      else .ok (some box)

/-- The left-side iteration of `cond_eval_map` (cond_eval.c:826): try
every left instance, stopping at the first nonzero outcome; exhausting
the instances leaves 0. -/
def cond_map_lhs_loop (fx : Fixup) (m : MapData) :
    Request → List FrPair → Int × Request
  | request, [] => (0, request)
  | request, vp :: rest =>
    match cond_normalise_and_cmp request fx m (some vp.data) with
    | (rcode, req2) =>
      if rcode ≠ 0 then (rcode, req2)
      else cond_map_lhs_loop fx m req2 rest

/-- Embedding of `cond_eval_map` (cond_eval.c:731) with
`WITH_REALIZE_TMPL` defined (cond_eval.c:397): realize both sides; if
BOTH realize, compare directly (regex operator to the regex comparator,
otherwise the generic primitive — no normalisation) and return.
Otherwise fall back: a left attribute/list either short-circuits to the
legacy pair comparison (paircompare, non-regex) or iterates instances;
left literal data normalises once; left exec/xlat re-expands (failure is
a failure outcome) and normalises once; other left kinds are programming
errors (-1). -/
def cond_eval_map (request : Request) (fx : Fixup) (m : MapData) : Int × Request :=
  match cond_realize_tmpl request m.lhs m.rhs with
  | .error _ => (-1, request)
  | .ok lhsR =>
    match cond_realize_tmpl request m.rhs m.lhs with
    | .error _ => (-1, request)
    | .ok rhsR =>
      match lhsR, rhsR with
      | some lv, some rv =>
        if m.op = .regEq then cond_do_regex request m (some lv) (some rv)
        else (fr_value_box_cmp_op m.op (some lv) (some rv), request)
      | _, _ =>
        match m.lhs with
        | .attr _ _ ref =>
          if fx = .paircompare ∧ m.op ≠ .regEq then
            cond_normalise_and_cmp request fx m none
          else
            cond_map_lhs_loop fx m request (request.pairs.filter (fun p => p.da = ref))
        | .listT _ =>
          if fx = .paircompare ∧ m.op ≠ .regEq then
            cond_normalise_and_cmp request fx m none
          else
            cond_map_lhs_loop fx m request request.pairs
        | .tdata _ v => cond_normalise_and_cmp request fx m (some v)
        | .exec _ x | .xlat _ x =>
          match request.aexpand x false with
          | none => (-1, request)
          | some s => cond_normalise_and_cmp request fx m (some (ValueBox.vstr s))
        | _ => (-1, request)

/-- Condition tree nodes (`fr_cond_t`).  A chain (the `next` links) is a
list of nodes; `&&` and `||` appear as their own marker entries in the
chain (`COND_TYPE_AND` / `COND_TYPE_OR`); a `child` node owns a nested
chain.  Each real node carries its `negate` flag, a map node also its
`pass2_fixup`. -/
inductive FrCond where
  | tmplC (neg : Bool) (vpt : Tmpl)
  | rcmatch (neg : Bool) (code : Nat)
  | cmap (neg : Bool) (fx : Fixup) (m : MapData)
  | child (neg : Bool) (sub : List FrCond)
  | ctrue (neg : Bool)
  | cfalse (neg : Bool)
  | andM
  | orM

/-- The `negate` flag of a node (markers carry none). -/
def FrCond.negate : FrCond → Bool
  | .tmplC n _ => n
  | .rcmatch n _ => n
  | .cmap n _ _ => n
  | .child n _ => n
  | .ctrue n => n
  | .cfalse n => n
  | .andM => false
  | .orM => false

/-- Atomic nodes: evaluated in place by one iteration of the walker
(everything except child nodes and the chain markers). -/
def condIsAtomic : FrCond → Bool
  | .child _ _ => false
  | .andM => false
  | .orM => false
  | _ => true

/-- One node's own evaluation inside the `cond_eval` loop
(cond_eval.c:913): template, stored-rcode match, map, constant true and
false; a marker or invalid node reaching this point returns -1 (the
`default` arm).  Child nodes are handled by the walker itself. -/
def cond_eval_atomic (request : Request) (mret : Nat) : FrCond → Int × Request
  | .tmplC _ vpt => (cond_eval_tmpl request vpt, request)
  | .rcmatch _ code => ((if code = mret then 1 else 0), request)
  | .cmap _ fx m => cond_eval_map request fx m
  | .ctrue _ => (1, request)
  | .cfalse _ => (0, request)
  | _ => (-1, request)

/-- Walker state: the pointer `c` of `cond_eval` is the head of `cur`;
`stack` holds, for each enclosing child node, the remainder of its chain
(what `parent->next` starts); `rcode` is the accumulated result; `req`
the request (regex captures mutate); `tr` the trace of atomic nodes whose
evaluation has been invoked. -/
structure WState where
  stack : List (List FrCond)
  cur : List FrCond
  rcode : Int
  req : Request
  tr : List FrCond

/-- Outcome of one iteration of the walker loop. -/
inductive StepR where
  | done (r : Int) (req : Request) (tr : List FrCond)
  | next (s : WState)

/-- The advance logic at the bottom of the `cond_eval` loop
(cond_eval.c:957): while the current node has no `next`, return to the
parent (terminating the walk at the root); on an AND marker a false
result returns to the parent, otherwise skip the marker (an exhausted
chain after the marker ends the whole walk, `while (c)`); an OR marker
mirrors the test on a true result; any other `next` is evaluated next. -/
def cond_advance (r : Int) (req : Request) (tr : List FrCond) :
    List FrCond → List (List FrCond) → StepR
  | [], [] => .done r req tr
  | [], top :: st2 => cond_advance r req tr top st2
  | .andM :: rest, st =>
    if r = 0 then
      match st with
      | [] => .done r req tr
      | top :: st2 => cond_advance r req tr top st2
    else
      match rest with
      | [] => .done r req tr
      | c :: rest2 => .next ⟨st, c :: rest2, r, req, tr⟩
  | .orM :: rest, st =>
    if r = 0 then
      match rest with
      | [] => .done r req tr
      | c :: rest2 => .next ⟨st, c :: rest2, r, req, tr⟩
    else
      match st with
      | [] => .done r req tr
      | top :: st2 => cond_advance r req tr top st2
  | c :: rest, st => .next ⟨st, c :: rest, r, req, tr⟩

/-- Evaluation of an atomic current node inside the `cond_eval` loop
(cond_eval.c:913): run the node (recording the invocation on the trace);
a negative outcome aborts the whole walk before negation
(`if (rcode < 0) return rcode`, line 946); otherwise `negate` is applied
(line 948) and the advance logic runs. -/
def cond_step_atomic (mret : Nat) (c : FrCond) (rest : List FrCond)
    (st : List (List FrCond)) (req : Request) (tr : List FrCond) : StepR :=
  match cond_eval_atomic req mret c with
  | (rc, req2) =>
    if rc < 0 then .done rc req2 (tr ++ [c])
    else
      cond_advance (if c.negate then (if rc = 0 then 1 else 0) else rc)
        req2 (tr ++ [c]) rest st

/-- One iteration of the `cond_eval` while loop (cond_eval.c:912): a null
current pointer ends the walk with the accumulated result; a child node
descends (no chain step consumed); a marker as current node is the
`default` arm (-1); any other node is atomic. -/
def cond_step (mret : Nat) (s : WState) : StepR :=
  match s.cur with
  | [] => .done s.rcode s.req s.tr
  | c :: rest =>
    match c with
    | .child _ sub => .next ⟨rest :: s.stack, sub, s.rcode, s.req, s.tr⟩
    | .andM => .done (-1) s.req s.tr
    | .orM => .done (-1) s.req s.tr
    | _ => cond_step_atomic mret c rest s.stack s.req s.tr

/-- Fuel-bounded iteration of the walker loop. -/
def cond_run (mret : Nat) : Nat → WState → Option (Int × Request × List FrCond)
  | fuel, s =>
    match cond_step mret s with
    | .done r req tr => some (r, req, tr)
    | .next s2 =>
      match fuel with
      | 0 => none
      | f + 1 => cond_run mret f s2

mutual
/-- Node count of one condition node (a child node counts itself plus its
subtree). -/
def FrCond.nodeCount : FrCond → Nat
  | .child _ sub => 1 + condChainCount sub
  | _ => 1
/-- Node count of a chain, markers included. -/
def condChainCount : List FrCond → Nat
  | [] => 0
  | c :: rest => FrCond.nodeCount c + condChainCount rest
end

/-- Embedding of `cond_eval` (cond_eval.c:900): run the iterative walk
from the head of the chain with the initial rcode -1.  The fuel is the
tree's node count; the termination theorem below shows each loop
iteration strictly decreases the remaining node measure, so this fuel is
never exhausted. -/
def cond_eval (request : Request) (mret : Nat) (chain : List FrCond) :
    Option (Int × Request × List FrCond) :=
  cond_run mret (condChainCount chain) ⟨[], chain, -1, request, []⟩

/-- Node count of the pending stack chains. -/
def stackCount : List (List FrCond) → Nat
  | [] => 0
  | t :: st => condChainCount t + stackCount st

/-- The walker measure: nodes still reachable from the current state. -/
def WState.meas (s : WState) : Nat := condChainCount s.cur + stackCount s.stack

/-- A result code of the evaluator: failure, false or true. -/
def rcOK (r : Int) : Prop := r = -1 ∨ r = 0 ∨ r = 1

/-- An inert request: no pairs, no captures, every collaborator fails or
reports nothing. -/
def req0 : Request :=
  { pairs := []
  , regex_captures := []
  , aexpand := fun _ _ => none
  , regex_compile_f := fun _ => none
  , subcapture_count_f := fun _ => 0
  , regex_exec_f := fun _ _ => .rfail
  , paircmp_f := fun _ _ => 1 }

/-- The map of the numeric-string example: literal "010" compared equal
to literal "10", no casts. -/
def mC1 : MapData :=
  { lhs := Tmpl.tdata FrType.invalid (ValueBox.vstr ['0', '1', '0'])
  , rhs := Tmpl.tdata FrType.invalid (ValueBox.vstr ['1', '0'])
  , op := FrOp.eq }

/-- A request whose legacy pair comparator always reports failure. -/
def reqC3 : Request := { req0 with paircmp_f := fun _ _ => -1 }

/-- A paircompare map: virtual attribute 1 (string) compared equal to
literal "x". -/
def mC3 : MapData :=
  { lhs := Tmpl.attr FrType.invalid FrType.tstring 1
  , rhs := Tmpl.tdata FrType.invalid (ValueBox.vstr ['x'])
  , op := FrOp.eq }

/-- The condition node for the paircompare map. -/
def condC3 : FrCond := FrCond.cmap false Fixup.paircompare mC3

/-- A map whose LEFT side is a string attribute reference and whose RIGHT
side is an expansion carrying an explicit uint64 cast. -/
def mC4 : MapData :=
  { lhs := Tmpl.attr FrType.invalid FrType.tstring 1
  , rhs := Tmpl.xlat FrType.tuint64 7
  , op := FrOp.gt }

/-- A request holding attribute 1 = "9" whose expansions produce "10". -/
def reqC4 : Request :=
  { req0 with
    pairs := [⟨1, FrOp.eq, ValueBox.vstr ['9']⟩]
  , aexpand := fun _ _ => some ['1', '0'] }

/-- A map for the existential right-attribute iteration: expansion left
side, attribute 1 right side. -/
def m7 : MapData :=
  { lhs := Tmpl.xlat FrType.invalid 0
  , rhs := Tmpl.attr FrType.invalid FrType.tstring 1
  , op := FrOp.eq }

/-- A regex map against precompiled pattern handle 5. -/
def mR : MapData :=
  { lhs := Tmpl.attr FrType.invalid FrType.tstring 1
  , rhs := Tmpl.regexT FrType.invalid 5
  , op := FrOp.regEq }

/-- A request whose regex engine matches with two capture groups. -/
def reqR : Request :=
  { req0 with
    regex_exec_f := fun _ _ => .rmatch [['b', 'a', 'r'], ['b', 'a', 'r']]
  , subcapture_count_f := fun _ => 2 }

/-- A request with old captures whose regex engine reports an execution
error. -/
def reqF : Request :=
  { req0 with
    regex_captures := [['o', 'l', 'd']]
  , regex_exec_f := fun _ _ => .rfail }

theorem nodeCount_pos (c : FrCond) : 1 ≤ c.nodeCount := by
  cases c <;> simp [FrCond.nodeCount]

theorem condChainCount_nil : condChainCount [] = 0 := rfl

theorem condChainCount_cons (c : FrCond) (rest : List FrCond) :
    condChainCount (c :: rest) = c.nodeCount + condChainCount rest := rfl

theorem stackCount_nil : stackCount [] = 0 := rfl

theorem stackCount_cons (t : List FrCond) (st : List (List FrCond)) :
    stackCount (t :: st) = condChainCount t + stackCount st := rfl

theorem cond_advance_next_meas (r : Int) (req : Request) (tr : List FrCond) :
    ∀ (st : List (List FrCond)) (cur : List FrCond) (s2 : WState),
    cond_advance r req tr cur st = StepR.next s2 →
    s2.meas ≤ condChainCount cur + stackCount st := by
  intro st
  induction st with
  | nil =>
    intro cur s2 h
    rcases cur with _ | ⟨c, rest⟩
    · exact absurd h (by simp [cond_advance])
    · cases c
      case andM =>
        simp only [cond_advance] at h
        by_cases hr : r = 0
        · rw [if_pos hr] at h
          exact absurd h (by simp)
        · rw [if_neg hr] at h
          rcases rest with _ | ⟨c2, rest2⟩
          · exact absurd h (by simp)
          · cases h
            simp only [WState.meas, condChainCount_cons, stackCount_nil, FrCond.nodeCount]
            omega
      case orM =>
        simp only [cond_advance] at h
        by_cases hr : r = 0
        · rw [if_pos hr] at h
          rcases rest with _ | ⟨c2, rest2⟩
          · exact absurd h (by simp)
          · cases h
            simp only [WState.meas, condChainCount_cons, stackCount_nil, FrCond.nodeCount]
            omega
        · rw [if_neg hr] at h
          exact absurd h (by simp)
      all_goals
        simp only [cond_advance] at h
        cases h
        simp [WState.meas]
  | cons top st2 ih =>
    intro cur s2 h
    rcases cur with _ | ⟨c, rest⟩
    · simp only [cond_advance] at h
      have hm := ih top s2 h
      simp only [condChainCount_nil, stackCount_cons]
      omega
    · cases c
      case andM =>
        simp only [cond_advance] at h
        by_cases hr : r = 0
        · rw [if_pos hr] at h
          have hm := ih top s2 h
          simp only [condChainCount_cons, stackCount_cons, FrCond.nodeCount]
          omega
        · rw [if_neg hr] at h
          rcases rest with _ | ⟨c2, rest2⟩
          · exact absurd h (by simp)
          · cases h
            simp only [WState.meas, condChainCount_cons, stackCount_cons, FrCond.nodeCount]
            omega
      case orM =>
        simp only [cond_advance] at h
        by_cases hr : r = 0
        · rw [if_pos hr] at h
          rcases rest with _ | ⟨c2, rest2⟩
          · exact absurd h (by simp)
          · cases h
            simp only [WState.meas, condChainCount_cons, stackCount_cons, FrCond.nodeCount]
            omega
        · rw [if_neg hr] at h
          have hm := ih top s2 h
          simp only [condChainCount_cons, stackCount_cons, FrCond.nodeCount]
          omega
      all_goals
        simp only [cond_advance] at h
        cases h
        simp [WState.meas]

theorem cond_step_next_meas (mret : Nat) (s s2 : WState)
    (h : cond_step mret s = StepR.next s2) : s2.meas < s.meas := by
  obtain ⟨st, cur, rcode, req, tr⟩ := s
  rcases cur with _ | ⟨c, rest⟩
  · exact absurd h (by simp [cond_step])
  · cases c
    case child n sub =>
      simp only [cond_step] at h
      cases h
      simp only [WState.meas, condChainCount_cons, stackCount_cons, FrCond.nodeCount]
      omega
    case andM => exact absurd h (by simp [cond_step])
    case orM => exact absurd h (by simp [cond_step])
    all_goals
      simp only [cond_step, cond_step_atomic] at h
      rcases hA : cond_eval_atomic req mret _ with ⟨rc, req2⟩
      rw [hA] at h
      by_cases hrc : rc < 0
      · rw [if_pos hrc] at h
        exact absurd h (by simp)
      · rw [if_neg hrc] at h
        have hm := cond_advance_next_meas _ req2 _ st rest s2 h
        simp only [WState.meas, condChainCount_cons, FrCond.nodeCount] at hm ⊢
        omega

theorem cond_run_eq (mret : Nat) (fuel : Nat) (s : WState) :
    cond_run mret fuel s =
      match cond_step mret s with
      | .done r req tr => some (r, req, tr)
      | .next s2 =>
        match fuel with
        | 0 => none
        | f + 1 => cond_run mret f s2 :=
  cond_run.eq_1 mret fuel s

theorem cond_run_done (mret : Nat) (fuel : Nat) (s : WState) (r : Int)
    (req : Request) (tr : List FrCond) (h : cond_step mret s = StepR.done r req tr) :
    cond_run mret fuel s = some (r, req, tr) := by
  rw [cond_run_eq, h]

theorem cond_run_next (mret : Nat) (f : Nat) (s s2 : WState)
    (h : cond_step mret s = StepR.next s2) :
    cond_run mret (f + 1) s = cond_run mret f s2 := by
  rw [cond_run_eq, h]

theorem cond_run_next_zero (mret : Nat) (s s2 : WState)
    (h : cond_step mret s = StepR.next s2) :
    cond_run mret 0 s = none := by
  rw [cond_run_eq, h]

theorem cond_run_isSome (mret : Nat) :
    ∀ (fuel : Nat) (s : WState), s.meas ≤ fuel →
    (cond_run mret fuel s).isSome := by
  intro fuel
  induction fuel with
  | zero =>
    intro s hle
    rcases hstep : cond_step mret s with ⟨r, req, tr⟩ | s2
    · simp [cond_run_done mret 0 s r req tr hstep]
    · have := cond_step_next_meas mret s s2 hstep
      omega
  | succ f ih =>
    intro s hle
    rcases hstep : cond_step mret s with ⟨r, req, tr⟩ | s2
    · simp [cond_run_done mret (f + 1) s r req tr hstep]
    · have hm := cond_step_next_meas mret s s2 hstep
      have h2 : s2.meas ≤ f := by omega
      have := ih s2 h2
      rw [cond_run_next mret f s s2 hstep]
      exact this

theorem cond_run_fuel_agree (mret : Nat) :
    ∀ (f1 : Nat) (f2 : Nat) (s : WState), s.meas ≤ f1 → s.meas ≤ f2 →
    cond_run mret f1 s = cond_run mret f2 s := by
  intro f1
  induction f1 with
  | zero =>
    intro f2 s h1 h2
    rcases hstep : cond_step mret s with ⟨r, req, tr⟩ | s2
    · rw [cond_run_done mret 0 s r req tr hstep, cond_run_done mret f2 s r req tr hstep]
    · have := cond_step_next_meas mret s s2 hstep
      omega
  | succ f ih =>
    intro f2 s h1 h2
    rcases hstep : cond_step mret s with ⟨r, req, tr⟩ | s2
    · rw [cond_run_done mret (f + 1) s r req tr hstep, cond_run_done mret f2 s r req tr hstep]
    · have hm := cond_step_next_meas mret s s2 hstep
      rcases f2 with _ | f2p
      · omega
      · have ha : s2.meas ≤ f := by omega
        have hb : s2.meas ≤ f2p := by omega
        rw [cond_run_next mret f s s2 hstep, cond_run_next mret f2p s s2 hstep]
        exact ih f2p s2 ha hb

/-- C9: for every request, prior result code and finite condition tree
(nested child subtrees included), the iterative walk of `cond_eval`
terminates — it yields a result, and fuel equal to the tree's node count
(`condChainCount`, markers and subtrees included) already suffices: no
node is ever revisited. -/
theorem C9_walker_terminates (request : Request) (mret : Nat)
    (chain : List FrCond) :
    (cond_eval request mret chain).isSome ∧
    cond_run mret (condChainCount chain) ⟨[], chain, -1, request, []⟩
      = cond_eval request mret chain := by
  have hm : (WState.mk [] chain (-1) request []).meas = condChainCount chain := by
    simp [WState.meas, stackCount_nil]
  constructor
  · exact cond_run_isSome mret (condChainCount chain) _ (by omega)
  · rfl

theorem opApply_rcOK (op : FrOp) (o : Ordering) : rcOK (opApply op o) := by
  cases op <;> simp only [opApply] <;>
    first
    | (split <;> simp [rcOK])
    | simp [rcOK]

theorem cmp_op_rcOK (op : FrOp) (a b : Option ValueBox) :
    rcOK (fr_value_box_cmp_op op a b) := by
  rcases a with _ | x
  · simp [fr_value_box_cmp_op, rcOK]
  · rcases b with _ | y
    · simp [fr_value_box_cmp_op, rcOK]
    · cases x <;> cases y <;>
        simp only [fr_value_box_cmp_op] <;>
        first
        | exact opApply_rcOK _ _
        | simp [rcOK]

theorem cond_do_regex_rcOK (request : Request) (m : MapData)
    (lhs rhs : Option ValueBox) : rcOK (cond_do_regex request m lhs rhs).1 := by
  rcases lhs with _ | v
  · simp [cond_do_regex, rcOK]
  · cases v
    case vstr s =>
      simp only [cond_do_regex]
      rcases hp : cond_regex_preg request m rhs with _ | preg
      · simp [rcOK]
      · rcases hx : request.regex_exec_f preg s with caps | _ | _ <;> simp [rcOK, hx]
    all_goals simp [cond_do_regex, rcOK]

theorem cond_cmp_values_rcOK (request : Request) (fx : Fixup) (m : MapData)
    (lhs rhs : Option ValueBox) : rcOK (cond_cmp_values request fx m lhs rhs).1 := by
  by_cases h1 : m.op = FrOp.regEq
  · simpa [cond_cmp_values, h1] using cond_do_regex_rcOK request m lhs rhs
  · by_cases h2 : fx = Fixup.paircompare
    · simp only [cond_cmp_values, h1, h2, if_false, if_true, reduceIte]
      rcases m.lhs with _ | _ | _ | _ | _ | _ | _ <;> rcases rhs with _ | rv <;>
        simp [rcOK] <;> split <;> simp <;> omega
    · simpa [cond_cmp_values, h1, h2] using cmp_op_rcOK m.op lhs rhs

theorem cond_cmp_attr_rhs_rcOK (fx : Fixup) (m : MapData) :
    ∀ (l : List FrPair) (request : Request) (ct : FrType) (lhs : Option ValueBox),
    rcOK (cond_cmp_attr_rhs fx m request ct lhs l).1 := by
  intro l
  induction l with
  | nil => intro request ct lhs; simp [cond_cmp_attr_rhs, rcOK]
  | cons vp rest ih =>
    intro request ct lhs
    simp only [cond_cmp_attr_rhs]
    rcases hc1 : castOperand (check_int_cast ct lhs (some vp.data)) lhs with _ | lhs2
    · simp [rcOK]
    · rcases hc2 : castOperand (check_int_cast ct lhs (some vp.data)) (some vp.data)
        with _ | rhs2
      · simp [rcOK]
      · rcases hv : cond_cmp_values request fx m lhs2 rhs2 with ⟨rc, req2⟩
        have hr := cond_cmp_values_rcOK request fx m lhs2 rhs2
        rw [hv] at hr
        by_cases hz : rc = 0
        · simpa [hv, hz] using ih req2 (check_int_cast ct lhs (some vp.data)) lhs2
        · simpa [hv, hz] using hr

theorem cond_normalise_rcOK (request : Request) (fx : Fixup) (m : MapData)
    (lhs : Option ValueBox) : rcOK (cond_normalise_and_cmp request fx m lhs).1 := by
  obtain ⟨ml, mr, mo⟩ := m
  cases mr
  all_goals simp only [cond_normalise_and_cmp]
  case attr cst dty ref => exact cond_cmp_attr_rhs_rcOK _ _ _ _ _ _
  all_goals
    repeat' split
  all_goals
    first
    | exact cond_cmp_values_rcOK _ _ _ _ _
    | simp [rcOK]

theorem cond_map_lhs_loop_rcOK (fx : Fixup) (m : MapData) :
    ∀ (l : List FrPair) (request : Request),
    rcOK (cond_map_lhs_loop fx m request l).1 := by
  intro l
  induction l with
  | nil => intro request; simp [cond_map_lhs_loop, rcOK]
  | cons vp rest ih =>
    intro request
    simp only [cond_map_lhs_loop]
    rcases hv : cond_normalise_and_cmp request fx m (some vp.data) with ⟨rc, req2⟩
    have hr := cond_normalise_rcOK request fx m (some vp.data)
    rw [hv] at hr
    by_cases hz : rc = 0
    · simpa [hz] using ih req2
    · simpa [hz] using hr

theorem cond_eval_tmpl_rcOK (request : Request) (vpt : Tmpl) :
    rcOK (cond_eval_tmpl request vpt) := by
  cases vpt
  all_goals simp only [cond_eval_tmpl]
  all_goals repeat' split
  all_goals simp [rcOK]

theorem cond_eval_map_rcOK (request : Request) (fx : Fixup) (m : MapData) :
    rcOK (cond_eval_map request fx m).1 := by
  simp only [cond_eval_map]
  repeat' split
  all_goals
    first
    | exact cond_do_regex_rcOK _ _ _ _
    | exact cmp_op_rcOK _ _ _
    | exact cond_normalise_rcOK _ _ _ _
    | exact cond_map_lhs_loop_rcOK _ _ _ _
    | (simp [rcOK]; done)
    | (simp only [rcOK]; exact cmp_op_rcOK _ _ _)

theorem cond_eval_atomic_rcOK (request : Request) (mret : Nat) (c : FrCond) :
    rcOK (cond_eval_atomic request mret c).1 := by
  cases c
  all_goals simp only [cond_eval_atomic]
  case tmplC n vpt => exact cond_eval_tmpl_rcOK request vpt
  case cmap n fx m => exact cond_eval_map_rcOK request fx m
  all_goals repeat' split
  all_goals simp [rcOK]

theorem cond_advance_result (r : Int) (req : Request) (tr : List FrCond) :
    ∀ (st : List (List FrCond)) (cur : List FrCond),
    (∀ r2 req2 tr2, cond_advance r req tr cur st = StepR.done r2 req2 tr2 →
       r2 = r ∧ req2 = req ∧ tr2 = tr) ∧
    (∀ s2, cond_advance r req tr cur st = StepR.next s2 →
       s2.rcode = r ∧ s2.req = req ∧ s2.tr = tr) := by
  intro st
  induction st with
  | nil =>
    intro cur
    rcases cur with _ | ⟨c, rest⟩
    · constructor
      · intro r2 req2 tr2 h
        simp only [cond_advance] at h
        cases h
        exact ⟨rfl, rfl, rfl⟩
      · intro s2 h
        exact absurd h (by simp [cond_advance])
    · cases c
      case andM =>
        constructor
        · intro r2 req2 tr2 h
          simp only [cond_advance] at h
          split at h <;> [skip; (rcases rest with _ | ⟨c2, rest2⟩)] <;>
            first
            | (cases h; exact ⟨rfl, rfl, rfl⟩)
            | simp at h
        · intro s2 h
          simp only [cond_advance] at h
          split at h <;> [skip; (rcases rest with _ | ⟨c2, rest2⟩)] <;>
            first
            | (cases h; exact ⟨rfl, rfl, rfl⟩)
            | simp at h
      case orM =>
        constructor
        · intro r2 req2 tr2 h
          simp only [cond_advance] at h
          split at h <;> [(rcases rest with _ | ⟨c2, rest2⟩); skip] <;>
            first
            | (cases h; exact ⟨rfl, rfl, rfl⟩)
            | simp at h
        · intro s2 h
          simp only [cond_advance] at h
          split at h <;> [(rcases rest with _ | ⟨c2, rest2⟩); skip] <;>
            first
            | (cases h; exact ⟨rfl, rfl, rfl⟩)
            | simp at h
      all_goals
        constructor
        · intro r2 req2 tr2 h
          exact absurd h (by simp [cond_advance])
        · intro s2 h
          simp only [cond_advance] at h
          cases h
          exact ⟨rfl, rfl, rfl⟩
  | cons top st2 ih =>
    intro cur
    rcases cur with _ | ⟨c, rest⟩
    · constructor
      · intro r2 req2 tr2 h
        simp only [cond_advance] at h
        exact (ih top).1 r2 req2 tr2 h
      · intro s2 h
        simp only [cond_advance] at h
        exact (ih top).2 s2 h
    · cases c
      case andM =>
        constructor
        · intro r2 req2 tr2 h
          simp only [cond_advance] at h
          split at h
          · exact (ih top).1 r2 req2 tr2 h
          · rcases rest with _ | ⟨c2, rest2⟩ <;>
              first
              | (cases h; exact ⟨rfl, rfl, rfl⟩)
              | simp at h
        · intro s2 h
          simp only [cond_advance] at h
          split at h
          · exact (ih top).2 s2 h
          · rcases rest with _ | ⟨c2, rest2⟩ <;>
              first
              | (cases h; exact ⟨rfl, rfl, rfl⟩)
              | simp at h
      case orM =>
        constructor
        · intro r2 req2 tr2 h
          simp only [cond_advance] at h
          split at h
          · rcases rest with _ | ⟨c2, rest2⟩ <;>
              first
              | (cases h; exact ⟨rfl, rfl, rfl⟩)
              | simp at h
          · exact (ih top).1 r2 req2 tr2 h
        · intro s2 h
          simp only [cond_advance] at h
          split at h
          · rcases rest with _ | ⟨c2, rest2⟩ <;>
              first
              | (cases h; exact ⟨rfl, rfl, rfl⟩)
              | simp at h
          · exact (ih top).2 s2 h
      all_goals
        constructor
        · intro r2 req2 tr2 h
          exact absurd h (by simp [cond_advance])
        · intro s2 h
          simp only [cond_advance] at h
          cases h
          exact ⟨rfl, rfl, rfl⟩

theorem cond_step_atomic_rcOK (mret : Nat) (c : FrCond) (rest : List FrCond)
    (st : List (List FrCond)) (req : Request) (tr : List FrCond) :
    (∀ r req2 tr2, cond_step_atomic mret c rest st req tr = StepR.done r req2 tr2 →
       rcOK r) ∧
    (∀ s2, cond_step_atomic mret c rest st req tr = StepR.next s2 →
       rcOK s2.rcode) := by
  rcases hA : cond_eval_atomic req mret c with ⟨rc, reqx⟩
  have hrc : rcOK rc := by
    have h0 := cond_eval_atomic_rcOK req mret c
    rw [hA] at h0
    exact h0
  have hOK2 : rcOK (if c.negate then (if rc = 0 then 1 else 0) else rc) := by
    split
    · split <;> simp [rcOK]
    · exact hrc
  constructor
  · intro r req3 tr3 h
    simp only [cond_step_atomic] at h
    rw [hA] at h
    by_cases hneg : rc < 0
    · rw [if_pos hneg] at h
      cases h
      exact hrc
    · rw [if_neg hneg] at h
      obtain ⟨he, he2, he3⟩ := (cond_advance_result _ reqx _ st rest).1 r req3 tr3 h
      rw [he]
      exact hOK2
  · intro s2 h
    simp only [cond_step_atomic] at h
    rw [hA] at h
    by_cases hneg : rc < 0
    · rw [if_pos hneg] at h
      exact absurd h (by simp)
    · rw [if_neg hneg] at h
      obtain ⟨he, he2, he3⟩ := (cond_advance_result _ reqx _ st rest).2 s2 h
      rw [he]
      exact hOK2

theorem cond_step_rcOK (mret : Nat) (s : WState) (hs : rcOK s.rcode) :
    (∀ r req tr, cond_step mret s = StepR.done r req tr → rcOK r) ∧
    (∀ s2, cond_step mret s = StepR.next s2 → rcOK s2.rcode) := by
  obtain ⟨st, cur, rcode, req, tr⟩ := s
  simp only at hs
  rcases cur with _ | ⟨c, rest⟩
  · constructor
    · intro r req2 tr2 h
      simp only [cond_step] at h
      cases h
      exact hs
    · intro s2 h
      exact absurd h (by simp [cond_step])
  · cases c
    case child n sub =>
      constructor
      · intro r req2 tr2 h
        exact absurd h (by simp [cond_step])
      · intro s2 h
        simp only [cond_step] at h
        cases h
        exact hs
    case andM =>
      constructor
      · intro r req2 tr2 h
        simp only [cond_step] at h
        cases h
        simp [rcOK]
      · intro s2 h
        exact absurd h (by simp [cond_step])
    case orM =>
      constructor
      · intro r req2 tr2 h
        simp only [cond_step] at h
        cases h
        simp [rcOK]
      · intro s2 h
        exact absurd h (by simp [cond_step])
    all_goals
      constructor
      · intro r req2 tr2 h
        simp only [cond_step] at h
        exact (cond_step_atomic_rcOK mret _ rest st req tr).1 r req2 tr2 h
      · intro s2 h
        simp only [cond_step] at h
        exact (cond_step_atomic_rcOK mret _ rest st req tr).2 s2 h

theorem cond_run_rcOK (mret : Nat) :
    ∀ (fuel : Nat) (s : WState), rcOK s.rcode →
    ∀ r req tr, cond_run mret fuel s = some (r, req, tr) → rcOK r := by
  intro fuel
  induction fuel with
  | zero =>
    intro s hs r req tr h
    rcases hstep : cond_step mret s with ⟨r2, req2, tr2⟩ | s2
    · rw [cond_run_done mret 0 s r2 req2 tr2 hstep] at h
      cases h
      exact (cond_step_rcOK mret s hs).1 r req tr hstep
    · rw [cond_run_next_zero mret s s2 hstep] at h
      cases h
  | succ f ih =>
    intro s hs r req tr h
    rcases hstep : cond_step mret s with ⟨r2, req2, tr2⟩ | s2
    · rw [cond_run_done mret (f + 1) s r2 req2 tr2 hstep] at h
      cases h
      exact (cond_step_rcOK mret s hs).1 r req tr hstep
    · rw [cond_run_next mret f s s2 hstep] at h
      exact ih s2 ((cond_step_rcOK mret s hs).2 s2 hstep) r req tr h

/-- C6: for every request, prior result code and condition tree, the
top-level `cond_eval` yields only boolean false (0), boolean true (1) or
the single fatal-error sentinel (-1); in particular it never produces
the distinct "no matching attribute found" sentinel -2, which the
interface reserves for a caller-side convention. -/
theorem C6_verdict_range (request : Request) (mret : Nat)
    (chain : List FrCond) (r : Int) (req2 : Request) (tr : List FrCond)
    (h : cond_eval request mret chain = some (r, req2, tr)) :
    (r = -1 ∨ r = 0 ∨ r = 1) ∧ r ≠ -2 := by
  have hs : rcOK (WState.mk [] chain (-1) request []).rcode := by
    simp [rcOK]
  have := cond_run_rcOK mret (condChainCount chain) _ hs r req2 tr h
  refine ⟨this, ?_⟩
  rcases this with h1 | h1 | h1 <;> omega

/-- Witness for C6 at a concrete input: a one-node `true` chain yields
the verdict 1, which is in range and is not -2. -/
theorem C6_verdict_range_witness :
    ((1 : Int) = -1 ∨ (1 : Int) = 0 ∨ (1 : Int) = 1) ∧ (1 : Int) ≠ -2 :=
  C6_verdict_range req0 0 [FrCond.ctrue false] 1 req0 [FrCond.ctrue false] rfl

theorem cond_step_single_atomic (mret : Nat) (a : FrCond) (rest : List FrCond)
    (st : List (List FrCond)) (rc0 : Int) (request : Request) (tr : List FrCond)
    (ha : condIsAtomic a = true) :
    cond_step mret ⟨st, a :: rest, rc0, request, tr⟩ =
      cond_step_atomic mret a rest st request tr := by
  cases a <;> first | rfl | simp [condIsAtomic] at ha

/-- C5: short-circuit evaluation.  For an atomic condition A whose
one-node walk yields the verdict r, and for ANY condition B: if r is
false then evaluating the chain `A && B` gives false with exactly A's
trace of invoked nodes — B is never invoked; dually, if r is true then
evaluating `A || B` gives true with exactly A's trace. -/
theorem C5_short_circuit (request req2 : Request) (mret : Nat) (a b : FrCond)
    (r : Int) (ha : condIsAtomic a = true)
    (h1 : cond_eval request mret [a] = some (r, req2, [a])) :
    (r = 0 → cond_eval request mret [a, FrCond.andM, b] = some (0, req2, [a])) ∧
    (r = 1 → cond_eval request mret [a, FrCond.orM, b] = some (1, req2, [a])) := by
  rcases hA : cond_eval_atomic request mret a with ⟨rc, q⟩
  by_cases hneg : rc < 0
  · have hstep : cond_step mret ⟨[], [a], -1, request, []⟩
        = StepR.done rc q [a] := by
      rw [cond_step_single_atomic mret a [] [] (-1) request [] ha]
      simp [cond_step_atomic, hA, hneg]
    unfold cond_eval at h1
    rw [cond_run_done mret _ _ _ _ _ hstep] at h1
    simp only [Option.some.injEq, Prod.mk.injEq] at h1
    obtain ⟨hv, hq, htr⟩ := h1
    constructor
    · intro h0
      exfalso
      omega
    · intro h0
      exfalso
      omega
  · have hstep : cond_step mret ⟨[], [a], -1, request, []⟩
        = StepR.done (if a.negate then (if rc = 0 then 1 else 0) else rc) q [a] := by
      rw [cond_step_single_atomic mret a [] [] (-1) request [] ha]
      simp [cond_step_atomic, hA, hneg, cond_advance]
    unfold cond_eval at h1
    rw [cond_run_done mret _ _ _ _ _ hstep] at h1
    simp only [Option.some.injEq, Prod.mk.injEq] at h1
    obtain ⟨hv, hq, htr⟩ := h1
    constructor
    · intro h0
      have hstepA : cond_step mret ⟨[], [a, FrCond.andM, b], -1, request, []⟩
          = StepR.done 0 req2 [a] := by
        rw [cond_step_single_atomic mret a [FrCond.andM, b] [] (-1) request [] ha]
        simp [cond_step_atomic, hA, hneg, hv, hq, h0, cond_advance]
      unfold cond_eval
      rw [cond_run_done mret _ _ _ _ _ hstepA]
    · intro h0
      have hstepO : cond_step mret ⟨[], [a, FrCond.orM, b], -1, request, []⟩
          = StepR.done 1 req2 [a] := by
        rw [cond_step_single_atomic mret a [FrCond.orM, b] [] (-1) request [] ha]
        simp [cond_step_atomic, hA, hneg, hv, hq, h0, cond_advance]
      unfold cond_eval
      rw [cond_run_done mret _ _ _ _ _ hstepO]

/-- Witness for C5 at a concrete input: A is a constant-false node, B a
constant-true node; the AND chain yields false with only A on the trace. -/
theorem C5_short_circuit_witness :
    (((0 : Int) = 0 →
        cond_eval req0 0 [FrCond.cfalse false, FrCond.andM, FrCond.ctrue false]
          = some (0, req0, [FrCond.cfalse false])) ∧
     ((0 : Int) = 1 →
        cond_eval req0 0 [FrCond.cfalse false, FrCond.orM, FrCond.ctrue false]
          = some (1, req0, [FrCond.cfalse false]))) :=
  C5_short_circuit req0 req0 0 (FrCond.cfalse false) (FrCond.ctrue false) 0 rfl rfl

/-- C7: existential OR over a right-hand attribute reference.  With the
per-instance state (selected type, possibly cast left operand) at the
head instance: if the head comparison succeeds the iteration stops there
with that result (the remaining instances are never touched); if casting
either side fails, the whole evaluation returns the failure -1
immediately (the instance is not skipped); if the head comparison is a
clean no-match the iteration continues on the remaining instances; and a
map whose right side is an attribute reference normalises to exactly
this iteration over the matching instances. -/
theorem C7_rhs_attr_existential (fx : Fixup) (m : MapData) (request : Request)
    (ct : FrType) (lhs : Option ValueBox) (vp : FrPair) (rest : List FrPair)
    (ct2 : FrType) (h2 : ct2 = check_int_cast ct lhs (some vp.data)) :
    (∀ lhs2 rhs2, castOperand ct2 lhs = some lhs2 →
       castOperand ct2 (some vp.data) = some rhs2 →
       ((cond_cmp_values request fx m lhs2 rhs2).1 = 1 →
          cond_cmp_attr_rhs fx m request ct lhs (vp :: rest) =
            cond_cmp_values request fx m lhs2 rhs2) ∧
       ((cond_cmp_values request fx m lhs2 rhs2).1 = 0 →
          cond_cmp_attr_rhs fx m request ct lhs (vp :: rest) =
            cond_cmp_attr_rhs fx m (cond_cmp_values request fx m lhs2 rhs2).2
              ct2 lhs2 rest)) ∧
    (castOperand ct2 lhs = none →
       cond_cmp_attr_rhs fx m request ct lhs (vp :: rest) = (-1, request)) ∧
    (∀ lhs2, castOperand ct2 lhs = some lhs2 →
       castOperand ct2 (some vp.data) = none →
       cond_cmp_attr_rhs fx m request ct lhs (vp :: rest) = (-1, request)) ∧
    (∀ cst dty ref, m.rhs = Tmpl.attr cst dty ref →
       cond_normalise_and_cmp request fx m lhs =
         cond_cmp_attr_rhs fx m request (cond_cast_type fx m) lhs
           (request.pairs.filter (fun p => p.da = ref))) := by
  subst h2
  refine ⟨?_, ?_, ?_, ?_⟩
  · intro lhs2 rhs2 hc1 hc2
    constructor
    · intro hcmp
      rcases hv : cond_cmp_values request fx m lhs2 rhs2 with ⟨rc, req2⟩
      rw [hv] at hcmp
      simp only at hcmp
      simp only [cond_cmp_attr_rhs, hc1, hc2, hv]
      rw [if_pos (by omega)]
    · intro hcmp
      rcases hv : cond_cmp_values request fx m lhs2 rhs2 with ⟨rc, req2⟩
      rw [hv] at hcmp
      simp only at hcmp
      simp only [cond_cmp_attr_rhs, hc1, hc2, hv]
      rw [if_neg (by omega)]
  · intro hc1
    simp only [cond_cmp_attr_rhs, hc1]
  · intro lhs2 hc1 hc2
    simp only [cond_cmp_attr_rhs, hc1, hc2]
  · intro cst dty ref hrhs
    obtain ⟨ml, mr, mo⟩ := m
    simp only at hrhs
    subst hrhs
    rfl

/-- Witness for C7 at a concrete input: attribute instance "1" against
expanded left "1"; the digit-string heuristic selects uint64, both casts
succeed and the comparison matches, so the iteration stops with that
result. -/
theorem C7_rhs_attr_existential_witness :
    cond_cmp_attr_rhs Fixup.fnone m7 req0 FrType.invalid
        (some (ValueBox.vstr ['1'])) [⟨1, FrOp.eq, ValueBox.vstr ['1']⟩] =
      cond_cmp_values req0 Fixup.fnone m7
        (some (ValueBox.vu64 1)) (some (ValueBox.vu64 1)) :=
  (((C7_rhs_attr_existential Fixup.fnone m7 req0 FrType.invalid
      (some (ValueBox.vstr ['1'])) ⟨1, FrOp.eq, ValueBox.vstr ['1']⟩ []
      FrType.tuint64 rfl).1)
    (some (ValueBox.vu64 1)) (some (ValueBox.vu64 1)) rfl rfl).1 rfl

/-- C8: the regex capture lifecycle.  Whenever `cond_do_regex` reaches
execution (string left operand and a pattern was obtained): on a match
it returns true and publishes the captured substrings into the request's
capture slots (bounded by the allocated slot count), replacing any
previous contents; on no-match it returns false and clears the slots; on
an execution error distinct from no-match it returns the failure -1. -/
theorem C8_regex_capture_lifecycle (request : Request) (m : MapData) (ls : Str)
    (rhs : Option ValueBox) (preg : Nat)
    (hp : cond_regex_preg request m rhs = some preg) :
    (∀ caps, request.regex_exec_f preg ls = RegexExecResult.rmatch caps →
       cond_do_regex request m (some (ValueBox.vstr ls)) rhs =
         (1, { request with
               regex_captures := caps.take (cond_subcaptures request preg) })) ∧
    (request.regex_exec_f preg ls = RegexExecResult.rnomatch →
       cond_do_regex request m (some (ValueBox.vstr ls)) rhs =
         (0, { request with regex_captures := [] })) ∧
    (request.regex_exec_f preg ls = RegexExecResult.rfail →
       (cond_do_regex request m (some (ValueBox.vstr ls)) rhs).1 = -1) := by
  refine ⟨?_, ?_, ?_⟩
  · intro caps hx
    simp [cond_do_regex, hp, hx]
  · intro hx
    simp [cond_do_regex, hp, hx]
  · intro hx
    simp [cond_do_regex, hp, hx]

/-- Witness for C8 at a concrete input: matching "bar" against the
precompiled pattern handle 5 with two reported subcaptures publishes the
two captured substrings. -/
theorem C8_regex_capture_lifecycle_witness :
    cond_do_regex reqR mR (some (ValueBox.vstr ['b', 'a', 'r'])) none =
      (1, { reqR with
            regex_captures :=
              ([['b', 'a', 'r'], ['b', 'a', 'r']] : List Str).take
                (cond_subcaptures reqR 5) }) :=
  (C8_regex_capture_lifecycle reqR mR ['b', 'a', 'r'] none 5 rfl).1
    [['b', 'a', 'r'], ['b', 'a', 'r']] rfl

/-- C10: frame property of the regex error path.  When regex execution
reports an error (distinct from both match and no-match), `cond_do_regex`
returns the failure with the request exactly as it was: the capture
slots are neither cleared nor overwritten. -/
theorem C10_regex_error_frame (request : Request) (m : MapData) (ls : Str)
    (rhs : Option ValueBox) (preg : Nat)
    (hp : cond_regex_preg request m rhs = some preg)
    (hx : request.regex_exec_f preg ls = RegexExecResult.rfail) :
    cond_do_regex request m (some (ValueBox.vstr ls)) rhs = (-1, request) ∧
    (cond_do_regex request m (some (ValueBox.vstr ls)) rhs).2.regex_captures =
      request.regex_captures := by
  constructor
  · simp [cond_do_regex, hp, hx]
  · simp [cond_do_regex, hp, hx]

/-- Witness for C10 at a concrete input: an erroring regex execution
leaves the pre-existing capture "old" untouched. -/
theorem C10_regex_error_frame_witness :
    cond_do_regex reqF mR (some (ValueBox.vstr ['b', 'a', 'r'])) none
      = (-1, reqF) ∧
    (cond_do_regex reqF mR (some (ValueBox.vstr ['b', 'a', 'r'])) none).2.regex_captures
      = reqF.regex_captures :=
  C10_regex_error_frame reqF mR ['b', 'a', 'r'] none 5 rfl rfl

/-- C1 counterexample: comparing literal string "010" equal to literal
string "10" (no casts, neither side an attribute, not paircompare) the
map evaluates to 0 (false), not the 1 (true) the claim states: both
literals realize, so the fast path compares them directly as strings and
the numeric-string heuristic is never consulted. -/
theorem C1_counterexample :
    (cond_eval_map req0 Fixup.fnone mC1).1 = 0 ∧
    (cond_eval_map req0 Fixup.fnone mC1).1 ≠ 1 :=
  ⟨rfl, by decide⟩

/-- C1 amended: for a Map comparing literal "010" equal to literal "10"
with no casts and neither side an attribute, evaluation returns false
(plain string equality): the realize-both fast path compares the two
literals directly, bypassing the numeric-string heuristic (which in any
case only fires when no operand type was forced — a literal operand
forces its own type).  Both operands do satisfy the digit test, the cast
primitive would read "010" as the number 10, and the numeric comparison
of the parsed values would return true — exhibiting the divergence from
the claimed behaviour. -/
theorem C1_amended (request : Request) :
    cond_eval_map request Fixup.fnone mC1 = (0, request) ∧
    all_digits ['0', '1', '0'] = true ∧
    all_digits ['1', '0'] = true ∧
    fr_value_box_cast (ValueBox.vstr ['0', '1', '0']) FrType.tuint64 =
      some (ValueBox.vu64 10) ∧
    fr_value_box_cmp_op FrOp.eq (some (ValueBox.vu64 10))
      (some (ValueBox.vu64 10)) = 1 :=
  ⟨rfl, rfl, rfl, rfl, rfl⟩

/-- C2 counterexample: a bare xlat template whose expansion fails
evaluates to 0 (false), not the fatal-error -1 the claim states
(`return false` at cond_eval.c:151). -/
theorem C2_counterexample :
    req0.aexpand 0 false = none ∧
    cond_eval_tmpl req0 (Tmpl.xlat FrType.invalid 0) = 0 ∧
    cond_eval_tmpl req0 (Tmpl.xlat FrType.invalid 0) ≠ -1 :=
  ⟨rfl, rfl, by decide⟩

/-- C2 amended: for a bare Template node whose template is Exec or Xlat,
an expansion failure makes the node evaluate to false (0) — it is NOT
surfaced as the fatal-error outcome; otherwise the node is true exactly
when the expansion produced a non-empty result. -/
theorem C2_amended (request : Request) (x : Nat) (ct : FrType)
    (res : Option Str) (h : request.aexpand x false = res) :
    cond_eval_tmpl request (Tmpl.xlat ct x) =
      res.elim 0 (fun s => if s.length = 0 then 0 else 1) ∧
    cond_eval_tmpl request (Tmpl.exec ct x) =
      res.elim 0 (fun s => if s.length = 0 then 0 else 1) := by
  rcases res with _ | s <;>
    constructor <;>
    simp [cond_eval_tmpl, h]

/-- Witness for C2 amended at a concrete input: the inert request's
expansion fails, and both node kinds evaluate to 0. -/
theorem C2_amended_witness :
    cond_eval_tmpl req0 (Tmpl.xlat FrType.invalid 0) = 0 ∧
    cond_eval_tmpl req0 (Tmpl.exec FrType.invalid 0) = 0 :=
  C2_amended req0 0 FrType.invalid none rfl

/-- C3 counterexample: the legacy pair comparator reports the failure -1,
yet the paircompare map evaluates to 0 (false) and the walk continues to
the OR sibling, which makes the whole chain true — the walk does not
abort and the caller never sees a failure outcome. -/
theorem C3_counterexample :
    reqC3.paircmp_f reqC3.pairs ⟨1, FrOp.eq, ValueBox.vstr ['x']⟩ = -1 ∧
    cond_eval_map reqC3 Fixup.paircompare mC3 = (0, reqC3) ∧
    cond_eval reqC3 0 [condC3, FrCond.orM, FrCond.ctrue false]
      = some (1, reqC3, [condC3, FrCond.ctrue false]) :=
  ⟨rfl, rfl, rfl⟩

/-- C3 amended: for a PairCompare map with a non-regex operator, the
comparison outcome is 1 exactly when the legacy pair comparator returns
zero; EVERY nonzero result — failure codes included — is coerced to 0
(no-match), so the node never yields the failure -1 from this path and
traversal continues normally. -/
theorem C3_amended (request : Request) (fx : Fixup) (m : MapData)
    (lhs : Option ValueBox) (rv : ValueBox) (cst dty : FrType) (da : Nat)
    (hfx : fx = Fixup.paircompare) (hop : m.op ≠ FrOp.regEq)
    (hlhs : m.lhs = Tmpl.attr cst dty da) :
    cond_cmp_values request fx m lhs (some rv) =
      ((if request.paircmp_f request.pairs ⟨da, m.op, rv⟩ = 0 then 1 else 0),
        request) ∧
    (cond_cmp_values request fx m lhs (some rv)).1 ≠ -1 := by
  subst hfx
  obtain ⟨ml, mr, mo⟩ := m
  simp only at hop hlhs
  subst hlhs
  have heq : cond_cmp_values request Fixup.paircompare
      ⟨Tmpl.attr cst dty da, mr, mo⟩ lhs (some rv) =
      ((if request.paircmp_f request.pairs ⟨da, mo, rv⟩ = 0 then 1 else 0),
        request) := by
    simp [cond_cmp_values, hop]
  refine ⟨heq, ?_⟩
  rw [heq]
  split <;> simp

/-- Witness for C3 amended at a concrete input: the always-failing
comparator gives a 0 (false) node outcome, never -1. -/
theorem C3_amended_witness :
    cond_cmp_values reqC3 Fixup.paircompare mC3 none (some (ValueBox.vstr ['x'])) =
      ((if reqC3.paircmp_f reqC3.pairs ⟨1, mC3.op, ValueBox.vstr ['x']⟩ = 0
        then 1 else 0), reqC3) ∧
    (cond_cmp_values reqC3 Fixup.paircompare mC3 none
        (some (ValueBox.vstr ['x']))).1 ≠ -1 :=
  C3_amended reqC3 Fixup.paircompare mC3 none (ValueBox.vstr ['x'])
    FrType.invalid FrType.tstring 1 rfl (by decide) rfl

/-- C4 counterexample: a map whose RIGHT template carries an explicit
uint64 cast while the LEFT is a string attribute reference: the selected
comparison type is the left attribute's string type, not the cast's
uint64 — and end to end the map compares "9" > "10" as strings (true),
where the uint64 comparison 9 > 10 would be false. -/
theorem C4_counterexample :
    mC4.rhs.tcast = FrType.tuint64 ∧
    tmpl_is_attr mC4.lhs = true ∧
    mC4.lhs.tcast = FrType.invalid ∧
    cond_cast_type Fixup.fnone mC4 = FrType.tstring ∧
    cond_cast_type Fixup.fnone mC4 ≠ FrType.tuint64 ∧
    (cond_eval_map reqC4 Fixup.fnone mC4).1 = 1 ∧
    fr_value_box_cmp_op FrOp.gt (some (ValueBox.vu64 9))
      (some (ValueBox.vu64 10)) = 0 :=
  ⟨rfl, rfl, rfl, rfl, by decide, rfl, rfl⟩

/-- C4 amended: in type normalisation for a non-regex, non-PairCompare
map, only an explicit cast on the LEFT template wins (it beats every
attribute-inferred type); an explicit cast carried by the RIGHT template
is ignored — when the left is an attribute reference without a cast of
its own, the left attribute's declared type is selected no matter what
cast the right side carries. -/
theorem C4_amended (fx : Fixup) (m : MapData) (dty : FrType) (ref : Nat)
    (hfx : fx ≠ Fixup.paircompare) (hop : m.op ≠ FrOp.regEq) :
    (m.lhs.tcast ≠ FrType.invalid → cond_cast_type fx m = m.lhs.tcast) ∧
    (m.lhs = Tmpl.attr FrType.invalid dty ref → cond_cast_type fx m = dty) := by
  constructor
  · intro hc
    simp [cond_cast_type, hfx, hop, hc]
  · intro hl
    simp [cond_cast_type, hfx, hop, hl, Tmpl.tcast, tmpl_is_attr, tmplDaType]

/-- Witness for C4 amended at a concrete input: for the map with a
string attribute left side and a uint64-cast right side, the selected
type is the left attribute's string type. -/
theorem C4_amended_witness :
    (mC4.lhs.tcast ≠ FrType.invalid →
       cond_cast_type Fixup.fnone mC4 = mC4.lhs.tcast) ∧
    (mC4.lhs = Tmpl.attr FrType.invalid FrType.tstring 1 →
       cond_cast_type Fixup.fnone mC4 = FrType.tstring) :=
  C4_amended Fixup.fnone mC4 FrType.tstring 1 (by decide) (by decide)
